import Mathlib

/-!
Verification of the vs_exporter metrics aggregation engine.

Shallow embedding of the Go sources:
* `internal/collector/virtual_service.go` — gateway/VirtualService
  compatibility resolver (`hostMatches`, `hostsCompatible`,
  `ensureGatewaysCached`, `VirtualServiceCollector.update`);
* `internal/productmetrics/scraper.go` — the pod scraper
  (`cloneAndLabelFamily`, `ScrapeOnce`);
* the product-metrics `Store` (`Replace`, `snapshot`, `WriteAll`)
  and the `/metrics` HTTP handler of `cmd/product-metrics`.

Go maps are embedded as association lists; the list order stands for the
(unspecified) iteration order of the Go map, which is made explicit so
that order-dependence of results can be observed.
-/

namespace VsExporter

/-! ## Metric data model (prometheus client_model, as used by the code) -/

/-- One metric sample: its label pairs in order plus an opaque payload
standing for the value/histogram content. -/
structure Sample where
  labels : List (String × String)
  payload : Nat
  deriving DecidableEq, Repr

/-- One metric family: name, help text, type (enum index) and its samples. -/
structure Family where
  name : String
  help : String
  ftype : Nat
  metric : List Sample
  deriving DecidableEq, Repr

/-- A family map (Go `map[string]*dto.MetricFamily`) as an association
list in iteration order. -/
abbrev FamMap := List (String × Family)

/-- Generic association-list lookup, standing for Go map indexing. -/
def assocLookup {α : Type} (m : List (String × α)) (k : String) : Option α :=
  (m.find? (fun p => p.1 = k)).map (·.2)

/-- Lookup a family by name (Go map indexing). -/
def lookupFam (m : FamMap) (k : String) : Option Family :=
  assocLookup m k

/-- Merge one family into an accumulator map: append its samples to an
existing entry of the same name, keeping the existing metadata, or add a
new entry. This is the merge step shared by `Scraper.scrapePod` and
`Store.snapshot` (`existing.Metric = append(existing.Metric, clone.Metric...)`). -/
def mergeFamilyInto : FamMap → String → Family → FamMap
  | [], n, f => [(n, f)]
  | (k, g) :: rest, n, f =>
    if k = n then (k, { g with metric := g.metric ++ f.metric }) :: rest
    else (k, g) :: mergeFamilyInto rest n f

/-! ## String primitives

Go's `strings.HasPrefix` / `strings.HasSuffix` / `strings.TrimPrefix`
are embedded over the character list of a `String` so that all
definitions evaluate by kernel reduction. -/

/-- Embedding of `strings.HasPrefix(s, p)`. -/
def strHasPrefix (s p : String) : Bool :=
  p.data.isPrefixOf s.data

/-- Embedding of `strings.HasSuffix(s, p)`. -/
def strHasSuffix (s p : String) : Bool :=
  p.data.isSuffixOf s.data

/-- Drop the first `n` characters of `s` (used for `strings.TrimPrefix`
of a one-character prefix). -/
def strDrop (s : String) (n : Nat) : String :=
  ⟨s.data.drop n⟩

/-! ## Host matching (virtual_service.go, `hostMatches` / `hostsCompatible`) -/

/-- Direct embedding of `hostMatches(pattern, host string) bool`. -/
def hostMatches (pattern host : String) : Bool :=
  if pattern = "" then false
  else if pattern = "*" || pattern = host then true
  else if strHasPrefix pattern "*." then strHasSuffix host (strDrop pattern 1)
  else false

/-- An Istio Gateway as the resolver reads it: name plus, per server,
the server's host pattern list (`gateway.Spec.Servers[i].Hosts`). -/
structure Gateway where
  name : String
  servers : List (List String)
  deriving DecidableEq, Repr

/-- Direct embedding of `hostsCompatible(vsHosts, gateway)` for a present
(non-nil) gateway: true when the VirtualService declares no hosts,
otherwise true when some (vsHost, gatewayHost) pair matches in either
direction. -/
def hostsCompatible (vsHosts : List String) (gw : Gateway) : Bool :=
  if vsHosts.isEmpty then true
  else
    let gatewayHosts := gw.servers.flatten
    if gatewayHosts.isEmpty then false
    else vsHosts.any (fun vsHost =>
      gatewayHosts.any (fun gwHost =>
        hostMatches gwHost vsHost || hostMatches vsHost gwHost))

/-- The spec's single-pair matching rule, word for word: exact equality,
or either string is exactly `*`, or either string has the form
`*.suffix` and the other ends with `.suffix`. -/
def specPairMatches (a b : String) : Bool :=
  a = b || a = "*" || b = "*"
    || (strHasPrefix a "*." && strHasSuffix b (strDrop a 1))
    || (strHasPrefix b "*." && strHasSuffix a (strDrop b 1))

/-- The spec's compatibility predicate built from `specPairMatches`. -/
def specCompatible (vsHosts : List String) (gw : Gateway) : Bool :=
  vsHosts.isEmpty
    || vsHosts.any (fun vsHost =>
        gw.servers.flatten.any (fun gwHost => specPairMatches vsHost gwHost))

/-- The amended single-pair rule: as the spec's rule, except that an
empty string never acts as a matching pattern, so exact equality only
applies to non-empty strings. -/
def specPairMatchesAmended (a b : String) : Bool :=
  (a ≠ "" && (a = "*" || a = b || (strHasPrefix a "*." && strHasSuffix b (strDrop a 1))))
    || (b ≠ "" && (b = "*" || b = a || (strHasPrefix b "*." && strHasSuffix a (strDrop b 1))))

/-- The compatibility predicate built from the amended pair rule. -/
def specCompatibleAmended (vsHosts : List String) (gw : Gateway) : Bool :=
  vsHosts.isEmpty
    || vsHosts.any (fun vsHost =>
        gw.servers.flatten.any (fun gwHost => specPairMatchesAmended vsHost gwHost))

/-! ## String ordering (Go `sort.Strings`), kernel-reducible -/

/-- Character comparison by code point. -/
def charLtB (a b : Char) : Bool :=
  a.toNat < b.toNat

/-- Lexicographic comparison of character lists, embedding Go's
byte-wise string `<`. -/
def strDataLt : List Char → List Char → Bool
  | [], [] => false
  | [], _ :: _ => true
  | _ :: _, [] => false
  | a :: as, b :: bs => charLtB a b || (a = b && strDataLt as bs)

/-- Strict string comparison. -/
def strLtB (a b : String) : Bool :=
  strDataLt a.data b.data

/-- Reflexive string comparison. -/
def strLeB (a b : String) : Bool :=
  strLtB a b || a = b

/-- The `≤` relation used when sorting family names. -/
abbrev strLe (a b : String) : Prop := strLeB a b = true

/-- The `<` relation used to state strict ascending order. -/
abbrev strLt (a b : String) : Prop := strLtB a b = true

/-- Embedding of `sort.Strings`. -/
def sortStrings (l : List String) : List String :=
  List.insertionSort strLe l

/-! ## Store (unnamed productmetrics store file: `Replace`, `snapshot`,
`WriteAll`) -/

/-- The store's target map (`map[string]map[string]*dto.MetricFamily`)
as an association list in iteration order. -/
abbrev TargetMap := List (String × FamMap)

/-- Lookup a target's snapshot (Go map indexing on `s.targets`). -/
def lookupTarget (targets : TargetMap) (k : String) : Option FamMap :=
  assocLookup targets k

/-- Embedding of `Store.Replace(target, all)`: `s.targets[target] = all`. -/
def replaceTarget : TargetMap → String → FamMap → TargetMap
  | [], t, fams => [(t, fams)]
  | (k, v) :: rest, t, fams =>
    if k = t then (k, fams) :: rest
    else (k, v) :: replaceTarget rest t fams

/-- Embedding of `Store.snapshot()`: fold every target's families into a
fresh merged map, appending samples for repeated names and keeping the
first-seen metadata. -/
def snapshot (targets : TargetMap) : FamMap :=
  targets.foldl
    (fun acc tf => tf.2.foldl (fun a nf => mergeFamilyInto a nf.1 nf.2) acc)
    []

/-- Embedding of `Store.WriteAll`: the sequence of families handed to
the text encoder, in ascending order of the merged map's names. -/
def writeAll (targets : TargetMap) : List Family :=
  let combined := snapshot targets
  (sortStrings (combined.map Prod.fst)).filterMap (fun n => lookupFam combined n)

/-- The `/metrics` handler of `cmd/product-metrics`: the default
registry's gathered families are encoded first, then `store.WriteAll`
appends the merged product families. -/
def handlerFamilies (registry : List Family) (targets : TargetMap) : List Family :=
  registry ++ writeAll targets

/-! ## Scraper (scraper.go) -/

/-- Embedding of the namespace-label stamping inside
`cloneAndLabelFamily`: overwrite the value of the first label named
`namespace`, or append one when absent. -/
def setNamespaceLabel (ns : String) : List (String × String) → List (String × String)
  | [] => [("namespace", ns)]
  | (k, v) :: rest =>
    if k = "namespace" then (k, ns) :: rest
    else (k, v) :: setNamespaceLabel ns rest

/-- Embedding of `cloneAndLabelFamily(family, namespace)`. -/
def cloneAndLabelFamily (family : Family) (ns : String) : Family :=
  { family with
    metric := family.metric.map (fun m => { m with labels := setNamespaceLabel ns m.labels }) }

/-- A pod as the scraper sees it: name plus assigned IP (empty when the
pod has no IP yet). -/
structure Pod where
  name : String
  ip : String
  deriving DecidableEq, Repr

/-- The cluster and network environment one scrape cycle runs against:
the namespace listing, the per-namespace pod listing, and the combined
fetch-and-parse of one pod's exposition payload. -/
structure ScrapeEnv where
  namespaces : Except String (List String)
  pods : String → Except String (List Pod)
  scrape : String → Pod → Except String (List (String × Family))

/-- Merging one pod's parsed families into the cycle accumulator
(the loop at the bottom of `scrapePod`). -/
def addParsed (acc : FamMap) (ns : String) (parsed : List (String × Family)) : FamMap :=
  parsed.foldl (fun a nf => mergeFamilyInto a nf.1 (cloneAndLabelFamily nf.2 ns)) acc

/-- The per-namespace pod loop of `ScrapeOnce`: skip IP-less pods,
record one error per failed scrape, merge successful parses. -/
def scrapePodsLoop (env : ScrapeEnv) (ns : String) (pods : List Pod)
    (st : FamMap × List String) : FamMap × List String :=
  pods.foldl
    (fun st pod =>
      if pod.ip = "" then st
      else
        match env.scrape ns pod with
        | .error e => (st.1, st.2 ++ ["scrape pod " ++ ns ++ "/" ++ pod.name ++ ": " ++ e])
        | .ok parsed => (addParsed st.1 ns parsed, st.2))
    st

/-- The namespace loop of `ScrapeOnce`: a pod-list failure records one
error and skips the namespace. -/
def scrapeNamespacesLoop (env : ScrapeEnv) (nss : List String)
    (st : FamMap × List String) : FamMap × List String :=
  nss.foldl
    (fun st ns =>
      match env.pods ns with
      | .error e => (st.1, st.2 ++ ["list pods in namespace " ++ ns ++ ": " ++ e])
      | .ok pods => scrapePodsLoop env ns pods st)
    st

/-- Embedding of `ScrapeOnce`: abort on a namespace-listing failure,
otherwise run the cycle and publish via `Store.Replace`; the returned
list is the cycle's aggregated independent errors (`errors.Join` is nil
exactly when the list is empty). -/
def scrapeOnce (env : ScrapeEnv) (target : String) (store : TargetMap) :
    TargetMap × List String :=
  match env.namespaces with
  | .error e => (store, ["list namespaces: " ++ e])
  | .ok nss =>
    let res := scrapeNamespacesLoop env nss ([], [])
    (replaceTarget store target res.1, res.2)

/-! ## Spec-side characterization of one scrape cycle -/

/-- The parsed family lists of the pods of one namespace that were
actually scraped: IP-less pods skipped, failed scrapes dropped. -/
def podParses (env : ScrapeEnv) (ns : String) (pods : List Pod) :
    List (List (String × Family)) :=
  pods.filterMap (fun pod =>
    if pod.ip = "" then none else (env.scrape ns pod).toOption)

/-- The scrape errors of one namespace's pods, in pod order. -/
def podFailures (env : ScrapeEnv) (ns : String) (pods : List Pod) : List String :=
  pods.filterMap (fun pod =>
    if pod.ip = "" then none
    else
      match env.scrape ns pod with
      | .error e => some ("scrape pod " ++ ns ++ "/" ++ pod.name ++ ": " ++ e)
      | .ok _ => none)

/-- All successful (namespace, parsed families) results of one cycle,
in visit order. -/
def cycleParses (env : ScrapeEnv) : List String → List (String × List (String × Family))
  | [] => []
  | ns :: rest =>
    match env.pods ns with
    | .error _ => cycleParses env rest
    | .ok pods => (podParses env ns pods).map (fun pr => (ns, pr)) ++ cycleParses env rest

/-- Every independent failure of one cycle, in visit order: one per
failed pod listing, one per failed pod scrape. -/
def cycleFailures (env : ScrapeEnv) : List String → List String
  | [] => []
  | ns :: rest =>
    match env.pods ns with
    | .error e => ("list pods in namespace " ++ ns ++ ": " ++ e) :: cycleFailures env rest
    | .ok pods => podFailures env ns pods ++ cycleFailures env rest

/-- The merged families of exactly the successfully scraped pods. -/
def mergedFamilies (env : ScrapeEnv) (nss : List String) : FamMap :=
  (cycleParses env nss).foldl (fun acc p => addParsed acc p.1 p.2) []

/-! ## Spec-side characterization of the merged store view -/

/-- The families that the stored targets define under a given name, in
target iteration order. -/
def targetsDefining (targets : TargetMap) (name : String) : List Family :=
  targets.filterMap (fun tf => lookupFam tf.2 name)

/-- Merge a list of same-named families: metadata of the first, sample
lists concatenated in order. -/
def mergeAllMetrics : Option Family → List Family → Option Family
  | acc, [] => acc
  | none, f :: fs => mergeAllMetrics (some f) fs
  | some g, f :: fs => mergeAllMetrics (some { g with metric := g.metric ++ f.metric }) fs

/-- Key/name consistency of a family map: each entry's key is the name
of the family it holds (guaranteed by the exposition parser feeding the
store). -/
abbrev nameConsistent (m : FamMap) : Prop :=
  ∀ p ∈ m, (p.2).name = p.1

/-! ## Gateway resolver (virtual_service.go, `VirtualServiceCollector`) -/

/-- An Istio VirtualService as the resolver reads it. -/
structure VirtualService where
  name : String
  hosts : List String
  gateways : List String
  deriving DecidableEq, Repr

/-- The cluster environment one resolver cycle runs against. -/
structure ResolverEnv where
  namespaces : Except String (List String)
  virtualServices : String → Except String (List VirtualService)
  gateways : String → Except String (List Gateway)

/-- One namespace's gateways by name (`map[string]*v1beta1.Gateway`). -/
abbrev GatewayMap := List (String × Gateway)

/-- The per-cycle gateway cache (`map[string]map[string]*v1beta1.Gateway`). -/
abbrev GatewayCache := List (String × GatewayMap)

/-- Lookup a gateway by name. -/
def lookupGw (m : GatewayMap) (k : String) : Option Gateway :=
  assocLookup m k

/-- Lookup a cached namespace. -/
def lookupCache (c : GatewayCache) (k : String) : Option GatewayMap :=
  assocLookup c k

/-- Map insertion with overwrite (`result[gateway.GetName()] = gateway`). -/
def upsertGw : GatewayMap → String → Gateway → GatewayMap
  | [], k, gw => [(k, gw)]
  | (k0, g0) :: rest, k, gw =>
    if k0 = k then (k0, gw) :: rest
    else (k0, g0) :: upsertGw rest k gw

/-- Index a namespace's gateway list by name, later entries winning. -/
def buildGwMap (gws : List Gateway) : GatewayMap :=
  gws.foldl (fun m gw => upsertGw m gw.name gw) []

/-- Embedding of `ensureGatewaysCached`: an empty namespace yields an
empty result without a list call; otherwise the memoized map is reused,
or the namespace's gateways are listed once, indexed and cached. The
third component records which namespaces were listed by this call. -/
def ensureGatewaysCached (env : ResolverEnv) (ns : String) (cache : GatewayCache) :
    Except String (GatewayCache × GatewayMap × List String) :=
  if ns = "" then .ok (cache, [], [])
  else
    match lookupCache cache ns with
    | some m => .ok (cache, m, [])
    | none =>
      match env.gateways ns with
      | .error e => .error e
      | .ok gws =>
        let m := buildGwMap gws
        .ok (cache ++ [(ns, m)], m, [ns])

/-- Split a character list at the first `/`. -/
def splitSlash : List Char → Option (List Char × List Char)
  | [] => none
  | c :: rest =>
    if c = '/' then some ([], rest)
    else (splitSlash rest).map (fun p => (c :: p.1, p.2))

/-- Embedding of the reference parsing in `update`: a reference
containing `/` is split at the first `/` into `namespace/name`
(`strings.SplitN(ref, "/", 2)`); a bare name resolves in the
VirtualService's own namespace. -/
def splitRef (defaultNs ref : String) : String × String :=
  match splitSlash ref.data with
  | none => (defaultNs, ref)
  | some p => (⟨p.1⟩, ⟨p.2⟩)

/-- A gauge series key: (namespace, virtual_service, gateway). -/
abbrev SeriesKey := String × String × String

/-- The compatibility gauge's series set. -/
abbrev GaugeSeries := List (SeriesKey × Nat)

/-- Embedding of `metric.WithLabelValues(...).Set(value)`: upsert. -/
def setSeries : GaugeSeries → SeriesKey → Nat → GaugeSeries
  | [], k, v => [(k, v)]
  | (k0, v0) :: rest, k, v =>
    if k0 = k then (k0, v) :: rest
    else (k0, v0) :: setSeries rest k v

/-- Evaluation of one gateway reference of one VirtualService (the body
of the `for _, gatewayRef := range gateways` loop): the computed gauge
value, the evolved cache, and the gateway list calls made. -/
def evalRef (env : ResolverEnv) (cache : GatewayCache) (nsName : String)
    (vsHosts : List String) (ref : String) :
    Except String (Nat × GatewayCache × List String) :=
  if ref = "" then .ok (0, cache, [])
  else if ref = "mesh" then .ok (1, cache, [])
  else
    match ensureGatewaysCached env (splitRef nsName ref).1 cache with
    | .error e => .error e
    | .ok (cache1, m, calls) =>
      let value :=
        if m.isEmpty then 0
        else
          match lookupGw m (splitRef nsName ref).2 with
          | none => 0
          | some gateway => if hostsCompatible vsHosts gateway then 1 else 0
      .ok (value, cache1, calls)

/-- The mutable state threaded through one resolver cycle: the gauge
being repopulated, the per-cycle cache, the log of gateway list calls,
and the series written so far in write order. -/
structure LoopState where
  gauge : GaugeSeries
  cache : GatewayCache
  calls : List String
  emitted : List (SeriesKey × Nat)
  deriving DecidableEq, Repr

/-- The reference loop of `update` for one VirtualService: each
reference's series is set as soon as it is evaluated; a gateway-listing
failure aborts immediately, keeping what was already set. -/
def refsLoop (env : ResolverEnv) (nsName vsName : String) (hosts : List String) :
    List String → LoopState → LoopState × Option String
  | [], s => (s, none)
  | ref :: rest, s =>
    match evalRef env s.cache nsName hosts ref with
    | .error e => (s, some e)
    | .ok (v, c1, calls) =>
      refsLoop env nsName vsName hosts rest
        { gauge := setSeries s.gauge (nsName, vsName, ref) v
          cache := c1
          calls := s.calls ++ calls
          emitted := s.emitted ++ [((nsName, vsName, ref), v)] }

/-- Processing of one VirtualService: an empty reference list is
replaced by the single implicit reference `"mesh"`. -/
def processVS (env : ResolverEnv) (nsName : String) (vs : VirtualService)
    (s : LoopState) : LoopState × Option String :=
  refsLoop env nsName vs.name vs.hosts
    (if vs.gateways.isEmpty then ["mesh"] else vs.gateways) s

/-- The VirtualService loop of `update` for one namespace. -/
def vsLoop (env : ResolverEnv) (nsName : String) :
    List VirtualService → LoopState → LoopState × Option String
  | [], s => (s, none)
  | vs :: rest, s =>
    match processVS env nsName vs s with
    | (s1, some e) => (s1, some e)
    | (s1, none) => vsLoop env nsName rest s1

/-- The namespace loop of `update`: warm the gateway cache for the
namespace, list its VirtualServices, process each; any listing failure
aborts the cycle where it stands. -/
def nsLoop (env : ResolverEnv) : List String → LoopState → LoopState × Option String
  | [], s => (s, none)
  | ns :: rest, s =>
    match ensureGatewaysCached env ns s.cache with
    | .error e => (s, some e)
    | .ok (c1, _, calls1) =>
      let s1 : LoopState := { s with cache := c1, calls := s.calls ++ calls1 }
      match env.virtualServices ns with
      | .error e => (s1, some e)
      | .ok vss =>
        match vsLoop env ns vss s1 with
        | (s2, some e) => (s2, some e)
        | (s2, none) => nsLoop env rest s2

/-- The resolver's observable state between cycles. -/
structure ResolverState where
  gauge : GaugeSeries
  updateCount : Nat
  deriving DecidableEq, Repr

/-- Everything one call to `update` produces. -/
structure UpdateResult where
  state : ResolverState
  gatewayListCalls : List String
  emitted : List (SeriesKey × Nat)
  err : Option String
  deriving DecidableEq, Repr

/-- Embedding of `VirtualServiceCollector.update`: bump the attempt
counter, abort before touching the gauge when the namespace listing
fails, otherwise reset the gauge to empty and repopulate it through the
namespace loop. -/
def update (env : ResolverEnv) (st : ResolverState) : UpdateResult :=
  let count := st.updateCount + 1
  match env.namespaces with
  | .error e => ⟨⟨st.gauge, count⟩, [], [], some e⟩
  | .ok nss =>
    let r := nsLoop env nss ⟨[], [], [], []⟩
    ⟨⟨r.1.gauge, count⟩, r.1.calls, r.1.emitted, r.2⟩

/-! ## Spec-side characterization of reference resolution -/

/-- The gateway map a namespace resolves to, cache-free: empty for the
empty namespace, otherwise the indexed result of listing it. -/
def gatewayMapSpec (env : ResolverEnv) (ns : String) : Except String GatewayMap :=
  if ns = "" then .ok [] else (env.gateways ns).map buildGwMap

/-- A cache is faithful when every memoized namespace is non-empty and
holds exactly what listing it would produce. -/
abbrev cacheFaithful (env : ResolverEnv) (c : GatewayCache) : Prop :=
  ∀ p ∈ c, p.1 ≠ "" ∧ gatewayMapSpec env p.1 = .ok p.2

/-! ## Concrete scenario inputs used by witnesses -/

/-- A previously published family `foo` with three samples. -/
def famFoo3 : Family :=
  ⟨"foo", "h", 0, [⟨[], 1⟩, ⟨[], 2⟩, ⟨[], 3⟩]⟩

/-- A store already holding `foo` for target `T`. -/
def storeFoo : TargetMap :=
  [("T", [("foo", famFoo3)])]

/-- A cycle whose namespace listing fails. -/
def envC2 : ScrapeEnv :=
  ⟨.error "boom", fun _ => .ok [], fun _ _ => .ok []⟩

/-- A cycle where namespace `A`'s pod listing fails and namespace `B`
has two eligible pods whose scrapes succeed. -/
def envC1 : ScrapeEnv :=
  ⟨.ok ["A", "B"],
   fun ns => if ns = "A" then .error "down" else .ok [⟨"p1", "10.0.0.1"⟩, ⟨"p2", "10.0.0.2"⟩],
   fun _ pod =>
     .ok [("bar", ⟨"bar", "help", 1,
       [⟨[("namespace", "spoofed")], if pod.name = "p1" then 1 else 2⟩]⟩)]⟩

/-- A parsed family whose payload already spoofs the namespace label. -/
def famSpoof : Family :=
  ⟨"f", "h", 0, [⟨[("namespace", "spoofed"), ("a", "b")], 5⟩]⟩

/-- A resolver environment where every namespace has zero gateways. -/
def envC6 : ResolverEnv :=
  ⟨.ok ["ns1"], fun _ => .ok [], fun _ => .ok []⟩

/-- A VirtualService with an empty, a dangling and the mesh reference. -/
def vsW : VirtualService :=
  ⟨"vs1", ["h.example.com"], ["", "missing/edge", "mesh"]⟩

/-- A VirtualService with no gateway references. -/
def vsMesh : VirtualService :=
  ⟨"vs0", [], []⟩

/-- A resolver cycle whose gateway listing fails after the namespace
listing succeeded. -/
def envC7 : ResolverEnv :=
  ⟨.ok ["ns1"], fun _ => .ok [], fun _ => .error "gwboom"⟩

/-- A resolver cycle whose namespace listing fails. -/
def envC7ns : ResolverEnv :=
  ⟨.error "nsboom", fun _ => .ok [], fun _ => .ok []⟩

/-- The gauge value one reference resolves to, cache-free. -/
def refValue (env : ResolverEnv) (nsName : String) (hosts : List String)
    (ref : String) : Nat :=
  if ref = "" then 0
  else if ref = "mesh" then 1
  else
    match gatewayMapSpec env (splitRef nsName ref).1 with
    | .error _ => 0
    | .ok m =>
      if m.isEmpty then 0
      else
        match lookupGw m (splitRef nsName ref).2 with
        | none => 0
        | some gw => if hostsCompatible hosts gw then 1 else 0

end VsExporter

namespace VsExporter

/-! ## Host matching lemmas -/

theorem hostMatches_eq_amended (p h : String) :
    hostMatches p h
      = (decide (p ≠ "") && (p = "*" || p = h || (strHasPrefix p "*." && strHasSuffix h (strDrop p 1)))) := by
  unfold hostMatches
  by_cases hp : p = "" <;> by_cases hs : p = "*" <;> by_cases he : p = h <;>
    by_cases hw : strHasPrefix p "*." <;> simp_all

theorem hostMatches_pair_comm (v g : String) :
    (hostMatches g v || hostMatches v g) = specPairMatchesAmended v g := by
  rw [hostMatches_eq_amended, hostMatches_eq_amended]
  unfold specPairMatchesAmended
  exact Bool.or_comm _ _

/-- C3. The claim as stated is refuted: with a VirtualService host `""`
and a gateway server host `""`, the spec rule's "exact equality" branch
declares the pair matching, but `hostMatches` rejects an empty pattern in
both directions, so `hostsCompatible` is false. -/
theorem claim_C3_counterexample :
    hostsCompatible [""] ⟨"gw", [[""]]⟩ = false
      ∧ specCompatible [""] ⟨"gw", [[""]]⟩ = true := by
  constructor
  · decide
  · decide

/-- C3 (amended). `hostsCompatible` is true exactly when the
VirtualService declares no hosts, or some (vsHost, gatewayHost) pair
matches under the spec's rule restricted so that an empty string never
matches as a pattern — exact equality of non-empty strings, either
string exactly `*`, or either string of the form `*.suffix` with the
other ending in `.suffix`, checked in both directions. -/
theorem claim_C3 (vsHosts : List String) (gw : Gateway) :
    hostsCompatible vsHosts gw = specCompatibleAmended vsHosts gw := by
  unfold hostsCompatible specCompatibleAmended
  by_cases he : vsHosts.isEmpty
  · simp [he]
  · by_cases hg : gw.servers.flatten.isEmpty
    · rw [List.isEmpty_iff] at hg
      simp [he, hg]
    · simp only [he, hg, if_neg, Bool.false_or, if_false]
      simp [hostMatches_pair_comm]

/-- C3 (witness for the amendment boundary): the spec's own examples
still hold under the amended rule. -/
theorem claim_C3_witness :
    hostsCompatible ["api.example.com"] ⟨"gw", [["*.example.com"]]⟩
        = specCompatibleAmended ["api.example.com"] ⟨"gw", [["*.example.com"]]⟩
      ∧ hostsCompatible ["api.example.com"] ⟨"gw", [["*.example.com"]]⟩ = true
      ∧ hostsCompatible ["other.com"] ⟨"gw", [["*.example.com"]]⟩ = false :=
  ⟨claim_C3 ["api.example.com"] ⟨"gw", [["*.example.com"]]⟩, by decide, by decide⟩

/-! ## Association lookup and merge lemmas -/

theorem assocLookup_cons {α : Type} (a : String) (b : α) (l : List (String × α)) (k : String) :
    assocLookup ((a, b) :: l) k = if a = k then some b else assocLookup l k := by
  unfold assocLookup
  rw [List.find?_cons]
  by_cases h : a = k <;> simp [h]

theorem assocLookup_eq_none {α : Type} (l : List (String × α)) (k : String)
    (h : k ∉ l.map Prod.fst) : assocLookup l k = none := by
  induction l with
  | nil => rfl
  | cons p rest ih =>
    simp only [List.map_cons, List.mem_cons] at h
    push_neg at h
    rw [show p = (p.1, p.2) from rfl, assocLookup_cons, if_neg (Ne.symm h.1)]
    exact ih h.2

theorem mergeFamilyInto_cons (k0 : String) (g : Family) (rest : FamMap)
    (n : String) (f : Family) :
    mergeFamilyInto ((k0, g) :: rest) n f =
      if k0 = n then (k0, { g with metric := g.metric ++ f.metric }) :: rest
      else (k0, g) :: mergeFamilyInto rest n f := rfl

theorem assocLookup_mergeFamilyInto (acc : FamMap) (n : String) (f : Family) (k : String) :
    assocLookup (mergeFamilyInto acc n f) k =
      if k = n then
        match assocLookup acc n with
        | none => some f
        | some g => some { g with metric := g.metric ++ f.metric }
      else assocLookup acc k := by
  induction acc with
  | nil =>
    by_cases h : k = n
    · subst h; simp [mergeFamilyInto, assocLookup_cons, assocLookup]
    · simp [mergeFamilyInto, assocLookup_cons, assocLookup, h, Ne.symm h]
  | cons p rest ih =>
    obtain ⟨k0, g⟩ := p
    rw [mergeFamilyInto_cons]
    by_cases h0 : k0 = n
    · subst h0
      by_cases hk : k0 = k
      · subst hk
        simp [assocLookup_cons]
      · simp [assocLookup_cons, hk, Ne.symm hk]
    · by_cases hk : k0 = k
      · subst hk
        simp [assocLookup_cons, h0, Ne.symm h0]
      · simp [assocLookup_cons, hk, h0, ih]

theorem assocLookup_famFold (fams : FamMap) (acc : FamMap) (k : String)
    (hnd : (fams.map Prod.fst).Nodup) :
    assocLookup (fams.foldl (fun a nf => mergeFamilyInto a nf.1 nf.2) acc) k =
      match assocLookup fams k with
      | none => assocLookup acc k
      | some f =>
        match assocLookup acc k with
        | none => some f
        | some g => some { g with metric := g.metric ++ f.metric } := by
  induction fams generalizing acc with
  | nil => rfl
  | cons p rest ih =>
    obtain ⟨k0, f0⟩ := p
    simp only [List.map_cons, List.nodup_cons] at hnd
    obtain ⟨hk0, hrest⟩ := hnd
    simp only [List.foldl_cons]
    rw [ih _ hrest, assocLookup_cons, assocLookup_mergeFamilyInto]
    by_cases hk : k0 = k
    · subst hk
      rw [if_pos rfl, if_pos rfl, assocLookup_eq_none rest k0 hk0]
    · rw [if_neg hk, if_neg (Ne.symm hk)]

theorem assocLookup_snapshot (targets : TargetMap) (acc : FamMap) (k : String)
    (hnd : ∀ tf ∈ targets, ((tf.2).map Prod.fst).Nodup) :
    assocLookup (targets.foldl
        (fun acc tf => tf.2.foldl (fun a nf => mergeFamilyInto a nf.1 nf.2) acc) acc) k =
      mergeAllMetrics (assocLookup acc k) (targetsDefining targets k) := by
  induction targets generalizing acc with
  | nil => simp [targetsDefining, mergeAllMetrics]
  | cons tf rest ih =>
    simp only [List.foldl_cons]
    have h1 : ((tf.2).map Prod.fst).Nodup := hnd tf (List.mem_cons_self tf rest)
    have h2 : ∀ t ∈ rest, ((t.2).map Prod.fst).Nodup :=
      fun t ht => hnd t (List.mem_cons_of_mem tf ht)
    rw [ih _ h2, assocLookup_famFold tf.2 acc k h1]
    show mergeAllMetrics _ _ = mergeAllMetrics _ (targetsDefining (tf :: rest) k)
    unfold targetsDefining
    rw [List.filterMap_cons]
    cases hres : lookupFam tf.2 k with
    | none =>
      rw [show assocLookup tf.2 k = none from hres]
    | some f =>
      rw [show assocLookup tf.2 k = some f from hres]
      cases hacc : assocLookup acc k with
      | none => simp [mergeAllMetrics]
      | some g => simp [mergeAllMetrics]

theorem mergeAllMetrics_some (g : Family) (fs : List Family) :
    mergeAllMetrics (some g) fs
      = some { g with metric := g.metric ++ (fs.map Family.metric).flatten } := by
  induction fs generalizing g with
  | nil => simp [mergeAllMetrics]
  | cons f fs ih =>
    show mergeAllMetrics (some { g with metric := g.metric ++ f.metric }) fs = _
    rw [ih]
    simp [List.append_assoc]

/-- C4. When the stored targets define a family name (first definer `f`,
later definers `fs`, in iteration order), the merged view holds that
name with the first definer's metadata and the concatenation of every
definer's samples, so the sample count is the sum across targets. -/
theorem claim_C4 (targets : TargetMap) (name : String)
    (hnd : ∀ tf ∈ targets, ((tf.2).map Prod.fst).Nodup)
    (f : Family) (fs : List Family)
    (hdef : targetsDefining targets name = f :: fs) :
    ∃ fam, lookupFam (snapshot targets) name = some fam
      ∧ fam.metric = f.metric ++ (fs.map Family.metric).flatten
      ∧ fam.metric.length = ((f :: fs).map (fun g => g.metric.length)).sum
      ∧ fam.help = f.help ∧ fam.ftype = f.ftype := by
  have h := assocLookup_snapshot targets [] name hnd
  rw [hdef] at h
  have hmain : lookupFam (snapshot targets) name = mergeAllMetrics (some f) fs := by
    show assocLookup (snapshot targets) name = _
    unfold snapshot
    rw [h]
    rfl
  rw [hmain, mergeAllMetrics_some]
  refine ⟨_, rfl, rfl, ?_, rfl, rfl⟩
  simp only [List.length_append, List.map_cons, List.sum_cons, List.length_flatten, List.map_map]
  rfl

/-- C4 (witness): two targets both defining `m`; the merged `m` carries
the first target's metadata and 3 = 1 + 2 samples. -/
theorem claim_C4_witness :
    (∀ tf ∈ ([("t1", [("m", Family.mk "m" "h1" 1 [⟨[], 1⟩])]),
              ("t2", [("m", Family.mk "m" "h2" 2 [⟨[], 2⟩, ⟨[], 3⟩]), ("k", Family.mk "k" "h" 0 [])])] : TargetMap),
        ((tf.2).map Prod.fst).Nodup)
      ∧ targetsDefining [("t1", [("m", Family.mk "m" "h1" 1 [⟨[], 1⟩])]),
              ("t2", [("m", Family.mk "m" "h2" 2 [⟨[], 2⟩, ⟨[], 3⟩]), ("k", Family.mk "k" "h" 0 [])])] "m"
          = [Family.mk "m" "h1" 1 [⟨[], 1⟩], Family.mk "m" "h2" 2 [⟨[], 2⟩, ⟨[], 3⟩]]
      ∧ ∃ fam, lookupFam (snapshot [("t1", [("m", Family.mk "m" "h1" 1 [⟨[], 1⟩])]),
              ("t2", [("m", Family.mk "m" "h2" 2 [⟨[], 2⟩, ⟨[], 3⟩]), ("k", Family.mk "k" "h" 0 [])])]) "m" = some fam
          ∧ fam.metric = [⟨[], 1⟩] ++ ([[⟨[], 2⟩, ⟨[], 3⟩]].map id).flatten
          ∧ fam.metric.length = (([Family.mk "m" "h1" 1 [⟨[], 1⟩], Family.mk "m" "h2" 2 [⟨[], 2⟩, ⟨[], 3⟩]]).map (fun g => g.metric.length)).sum
          ∧ fam.help = "h1" ∧ fam.ftype = 1 := by
  refine ⟨by decide, by decide, ?_⟩
  have := claim_C4 [("t1", [("m", Family.mk "m" "h1" 1 [⟨[], 1⟩])]),
              ("t2", [("m", Family.mk "m" "h2" 2 [⟨[], 2⟩, ⟨[], 3⟩]), ("k", Family.mk "k" "h" 0 [])])] "m"
      (by decide) (Family.mk "m" "h1" 1 [⟨[], 1⟩]) [Family.mk "m" "h2" 2 [⟨[], 2⟩, ⟨[], 3⟩]] (by decide)
  simpa using this

/-! ## String ordering lemmas -/

theorem charToNat_inj {a b : Char} (h : a.toNat = b.toNat) : a = b := by
  apply Char.ext
  unfold Char.toNat at h
  exact UInt32.toNat.inj h

theorem strDataLt_trans : ∀ {as bs cs : List Char},
    strDataLt as bs = true → strDataLt bs cs = true → strDataLt as cs = true
  | [], [], _, h1, _ => by simp [strDataLt] at h1
  | [], _ :: _, [], _, h2 => by simp [strDataLt] at h2
  | [], _ :: _, _ :: _, _, _ => rfl
  | _ :: _, [], _, h1, _ => by simp [strDataLt] at h1
  | _ :: _, _ :: _, [], _, h2 => by simp [strDataLt] at h2
  | a :: as, b :: bs, c :: cs, h1, h2 => by
    simp only [strDataLt, charLtB, Bool.or_eq_true, Bool.and_eq_true,
      decide_eq_true_eq] at h1 h2 ⊢
    rcases h1 with h1 | ⟨rfl, h1⟩
    · rcases h2 with h2 | ⟨rfl, _⟩
      · exact Or.inl (Nat.lt_trans h1 h2)
      · exact Or.inl h1
    · rcases h2 with h2 | ⟨rfl, h2⟩
      · exact Or.inl h2
      · exact Or.inr ⟨rfl, strDataLt_trans h1 h2⟩

theorem strDataLt_total : ∀ as bs : List Char,
    strDataLt as bs = true ∨ strDataLt bs as = true ∨ as = bs
  | [], [] => Or.inr (Or.inr rfl)
  | [], _ :: _ => Or.inl rfl
  | _ :: _, [] => Or.inr (Or.inl rfl)
  | a :: as, b :: bs => by
    by_cases hab : a = b
    · subst hab
      rcases strDataLt_total as bs with h | h | h
      · exact Or.inl (by simp [strDataLt, h])
      · exact Or.inr (Or.inl (by simp [strDataLt, h]))
      · exact Or.inr (Or.inr (by rw [h]))
    · rcases Nat.lt_trichotomy a.toNat b.toNat with h | h | h
      · exact Or.inl (by simp [strDataLt, charLtB, h])
      · exact absurd (charToNat_inj h) hab
      · exact Or.inr (Or.inl (by simp [strDataLt, charLtB, h]))

theorem string_eq_of_data_eq {a b : String} (h : a.data = b.data) : a = b := by
  cases a
  cases b
  exact congrArg String.mk h

theorem strLe_total (a b : String) : strLe a b ∨ strLe b a := by
  unfold strLe strLeB strLtB
  rcases strDataLt_total a.data b.data with h | h | h
  · exact Or.inl (by simp [h])
  · exact Or.inr (by simp [h])
  · exact Or.inl (by simp [string_eq_of_data_eq h])

theorem strLe_trans {a b c : String} (h1 : strLe a b) (h2 : strLe b c) : strLe a c := by
  unfold strLe strLeB strLtB at h1 h2 ⊢
  simp only [Bool.or_eq_true, decide_eq_true_eq] at h1 h2 ⊢
  rcases h1 with h1 | rfl
  · rcases h2 with h2 | rfl
    · exact Or.inl (strDataLt_trans h1 h2)
    · exact Or.inl h1
  · exact h2

instance : IsTotal String strLe := ⟨strLe_total⟩

instance : IsTrans String strLe := ⟨fun _ _ _ => strLe_trans⟩

theorem strLt_of_strLe_ne {a b : String} (h1 : strLe a b) (h2 : a ≠ b) : strLt a b := by
  unfold strLe strLeB at h1
  simp only [Bool.or_eq_true, decide_eq_true_eq] at h1
  rcases h1 with h1 | rfl
  · exact h1
  · exact absurd rfl h2

theorem sortStrings_sorted (l : List String) : (sortStrings l).Sorted strLe :=
  List.sorted_insertionSort strLe l

theorem sortStrings_perm (l : List String) : (sortStrings l).Perm l :=
  List.perm_insertionSort strLe l

theorem sorted_strLt_of_nodup {l : List String} (hnd : l.Nodup) (hs : l.Sorted strLe) :
    l.Sorted strLt :=
  (hs.and hnd).imp (fun h => strLt_of_strLe_ne h.1 h.2)

/-! ## Key uniqueness and name consistency of the merged view -/

theorem mem_keys_mergeFamilyInto (acc : FamMap) (n : String) (f : Family) (k : String) :
    k ∈ (mergeFamilyInto acc n f).map Prod.fst ↔ k ∈ acc.map Prod.fst ∨ k = n := by
  induction acc with
  | nil => simp [mergeFamilyInto]
  | cons p rest ih =>
    obtain ⟨k0, g⟩ := p
    rw [mergeFamilyInto_cons]
    by_cases h0 : k0 = n
    · subst h0
      by_cases hk : k = k0 <;> simp [hk]
    · simp only [if_neg h0, List.map_cons, List.mem_cons, ih]
      tauto

theorem nodup_keys_mergeFamilyInto (acc : FamMap) (n : String) (f : Family)
    (h : (acc.map Prod.fst).Nodup) : ((mergeFamilyInto acc n f).map Prod.fst).Nodup := by
  induction acc with
  | nil => simp [mergeFamilyInto]
  | cons p rest ih =>
    obtain ⟨k0, g⟩ := p
    simp only [List.map_cons, List.nodup_cons] at h
    rw [mergeFamilyInto_cons]
    by_cases h0 : k0 = n
    · simp only [if_pos h0, List.map_cons, List.nodup_cons]
      exact h
    · simp only [if_neg h0, List.map_cons, List.nodup_cons]
      refine ⟨?_, ih h.2⟩
      rw [mem_keys_mergeFamilyInto]
      rintro (hmem | rfl)
      · exact h.1 hmem
      · exact h0 rfl

theorem nodup_keys_famFold (fams : FamMap) (acc : FamMap)
    (h : (acc.map Prod.fst).Nodup) :
    (((fams.foldl (fun a nf => mergeFamilyInto a nf.1 nf.2) acc)).map Prod.fst).Nodup := by
  induction fams generalizing acc with
  | nil => exact h
  | cons p rest ih =>
    simp only [List.foldl_cons]
    exact ih _ (nodup_keys_mergeFamilyInto acc p.1 p.2 h)

theorem nodup_keys_snapshot (targets : TargetMap) :
    ((snapshot targets).map Prod.fst).Nodup := by
  unfold snapshot
  suffices h : ∀ acc : FamMap, (acc.map Prod.fst).Nodup →
      ((targets.foldl
        (fun acc tf => tf.2.foldl (fun a nf => mergeFamilyInto a nf.1 nf.2) acc) acc).map
          Prod.fst).Nodup by
    exact h [] (by simp)
  induction targets with
  | nil => intro acc hacc; exact hacc
  | cons tf rest ih =>
    intro acc hacc
    simp only [List.foldl_cons]
    exact ih _ (nodup_keys_famFold tf.2 acc hacc)

theorem nameConsistent_mergeFamilyInto (acc : FamMap) (n : String) (f : Family)
    (hacc : nameConsistent acc) (hf : f.name = n) :
    nameConsistent (mergeFamilyInto acc n f) := by
  induction acc with
  | nil =>
    intro p hp
    simp only [mergeFamilyInto, List.mem_singleton] at hp
    subst hp
    exact hf
  | cons q rest ih =>
    obtain ⟨k0, g⟩ := q
    have hg : g.name = k0 := hacc (k0, g) (List.mem_cons_self _ _)
    have hrest : nameConsistent rest := fun p hp => hacc p (List.mem_cons_of_mem _ hp)
    rw [mergeFamilyInto_cons]
    by_cases h0 : k0 = n
    · rw [if_pos h0]
      intro p hp
      rcases List.mem_cons.mp hp with rfl | hp
      · exact hg
      · exact hrest p hp
    · rw [if_neg h0]
      intro p hp
      rcases List.mem_cons.mp hp with rfl | hp
      · exact hg
      · exact ih hrest p hp

theorem nameConsistent_famFold (fams : FamMap) (acc : FamMap)
    (hacc : nameConsistent acc) (hfams : nameConsistent fams) :
    nameConsistent (fams.foldl (fun a nf => mergeFamilyInto a nf.1 nf.2) acc) := by
  induction fams generalizing acc with
  | nil => exact hacc
  | cons p rest ih =>
    simp only [List.foldl_cons]
    have hp : (p.2).name = p.1 := hfams p (List.mem_cons_self _ _)
    have hrest : nameConsistent rest := fun q hq => hfams q (List.mem_cons_of_mem _ hq)
    exact ih _ (nameConsistent_mergeFamilyInto acc p.1 p.2 hacc hp) hrest

theorem nameConsistent_snapshot (targets : TargetMap)
    (hnc : ∀ tf ∈ targets, nameConsistent tf.2) :
    nameConsistent (snapshot targets) := by
  unfold snapshot
  suffices h : ∀ acc : FamMap, nameConsistent acc →
      nameConsistent (targets.foldl
        (fun acc tf => tf.2.foldl (fun a nf => mergeFamilyInto a nf.1 nf.2) acc) acc) by
    exact h [] (fun p hp => absurd hp (List.not_mem_nil p))
  induction targets with
  | nil => intro acc hacc; exact hacc
  | cons tf rest ih =>
    intro acc hacc
    simp only [List.foldl_cons]
    have h1 : nameConsistent tf.2 := hnc tf (List.mem_cons_self _ _)
    have h2 : ∀ t ∈ rest, nameConsistent t.2 := fun t ht => hnc t (List.mem_cons_of_mem _ ht)
    exact ih h2 _ (nameConsistent_famFold tf.2 acc hacc h1)

theorem assocLookup_mem {α : Type} {m : List (String × α)} {k : String} {v : α}
    (h : assocLookup m k = some v) : (k, v) ∈ m := by
  induction m with
  | nil => exact absurd h (by simp [assocLookup])
  | cons p rest ih =>
    rw [show p = (p.1, p.2) from rfl, assocLookup_cons] at h
    by_cases hp : p.1 = k
    · rw [if_pos hp] at h
      injection h with h2
      subst hp
      rw [← h2]
      exact List.mem_cons_self _ _
    · rw [if_neg hp] at h
      exact List.mem_cons_of_mem _ (ih h)

theorem assocLookup_isSome_of_mem_keys {α : Type} {m : List (String × α)} {k : String}
    (h : k ∈ m.map Prod.fst) : ∃ v, assocLookup m k = some v := by
  induction m with
  | nil => simp at h
  | cons p rest ih =>
    rw [show p = (p.1, p.2) from rfl, assocLookup_cons]
    by_cases hp : p.1 = k
    · exact ⟨p.2, by rw [if_pos hp]⟩
    · rw [if_neg hp]
      simp only [List.map_cons, List.mem_cons] at h
      rcases h with h | h
      · exact absurd h.symm hp
      · exact ih h

theorem filterMap_map_eq_self {α β : Type} (l : List α) (f : α → Option β) (g : β → α)
    (h : ∀ a ∈ l, ∃ b, f a = some b ∧ g b = a) : (l.filterMap f).map g = l := by
  induction l with
  | nil => rfl
  | cons a rest ih =>
    obtain ⟨b, hb, hgb⟩ := h a (List.mem_cons_self _ _)
    rw [List.filterMap_cons, hb]
    simp only [List.map_cons, hgb]
    rw [ih (fun x hx => h x (List.mem_cons_of_mem _ hx))]

theorem writeAll_names (targets : TargetMap)
    (hnc : ∀ tf ∈ targets, nameConsistent tf.2) :
    (writeAll targets).map Family.name = sortStrings ((snapshot targets).map Prod.fst) := by
  unfold writeAll
  apply filterMap_map_eq_self
  intro k hk
  have hk2 : k ∈ (snapshot targets).map Prod.fst :=
    (List.mem_insertionSort strLe).mp hk
  obtain ⟨fam, hfam⟩ := assocLookup_isSome_of_mem_keys hk2
  refine ⟨fam, hfam, ?_⟩
  exact nameConsistent_snapshot targets hnc (k, fam) (assocLookup_mem hfam)

theorem writeAll_names_sorted (targets : TargetMap)
    (hnc : ∀ tf ∈ targets, nameConsistent tf.2) :
    ((writeAll targets).map Family.name).Sorted strLt := by
  rw [writeAll_names targets hnc]
  apply sorted_strLt_of_nodup
  · exact ((sortStrings_perm _).nodup_iff).mpr (nodup_keys_snapshot targets)
  · exact sortStrings_sorted _

/-- C8. The claim as stated is refuted: the two serializations read the
same abstract store state (identical per-target lookups), but because
`snapshot` ranges over a Go map whose iteration order is unspecified,
two different admissible iteration orders of the same two targets merge
the shared family's samples in different orders, so the encoder inputs
(and hence the bytes) differ. -/
theorem claim_C8_counterexample :
    (∀ k, lookupTarget [("alpha", [("m", Family.mk "m" "h" 0 [⟨[], 1⟩])]),
            ("beta", [("m", Family.mk "m" "h" 0 [⟨[], 2⟩])])] k
        = lookupTarget [("beta", [("m", Family.mk "m" "h" 0 [⟨[], 2⟩])]),
            ("alpha", [("m", Family.mk "m" "h" 0 [⟨[], 1⟩])])] k)
      ∧ writeAll [("alpha", [("m", Family.mk "m" "h" 0 [⟨[], 1⟩])]),
            ("beta", [("m", Family.mk "m" "h" 0 [⟨[], 2⟩])])]
        ≠ writeAll [("beta", [("m", Family.mk "m" "h" 0 [⟨[], 2⟩])]),
            ("alpha", [("m", Family.mk "m" "h" 0 [⟨[], 1⟩])])] := by
  constructor
  · intro k
    unfold lookupTarget
    simp only [assocLookup_cons]
    by_cases h1 : "alpha" = k <;> by_cases h2 : "beta" = k
    · exact absurd (h1.trans h2.symm) (by decide)
    · simp [h1, h2]
    · simp [h1, h2]
    · simp [h1, h2]
  · decide

/-- C8 (amended). For a fixed iteration order of the stored targets the
serialization is a function of the store — two calls with no intervening
`Replace` and the same order yield identical encoder input — and the
family names it enumerates are strictly ascending; byte-identity across
calls holds only up to the map's unspecified iteration order, which can
reorder samples of a family shared by two targets. -/
theorem claim_C8 (targets : TargetMap)
    (hnc : ∀ tf ∈ targets, nameConsistent tf.2) :
    ((writeAll targets).map Family.name).Sorted strLt :=
  writeAll_names_sorted targets hnc

/-- C8 (witness): a store whose one target lists families out of order
still serializes with strictly ascending names. -/
theorem claim_C8_witness :
    (∀ tf ∈ ([("t", [("b", Family.mk "b" "h" 0 []), ("a", Family.mk "a" "h" 0 [])])] : TargetMap),
        nameConsistent tf.2)
      ∧ ((writeAll [("t", [("b", Family.mk "b" "h" 0 []), ("a", Family.mk "a" "h" 0 [])])]).map
          Family.name).Sorted strLt :=
  ⟨by decide, claim_C8 [("t", [("b", Family.mk "b" "h" 0 []), ("a", Family.mk "a" "h" 0 [])])]
    (by decide)⟩

/-- C9. The claim as stated is refuted: the `/metrics` body is the
registry's families followed by the store's families, each segment
sorted independently; with a registry family `b` and a store family
`a` the combined name sequence is `["b", "a"]`, which is not ascending. -/
theorem claim_C9_counterexample :
    ((handlerFamilies [Family.mk "b" "h" 0 []]
        [("t", [("a", Family.mk "a" "h" 0 [])])]).map Family.name = ["b", "a"])
      ∧ ¬ (((handlerFamilies [Family.mk "b" "h" 0 []]
        [("t", [("a", Family.mk "a" "h" 0 [])])]).map Family.name).Sorted strLe) := by
  constructor
  · decide
  · decide

/-- C9 (amended). The combined exposition body is exactly the registry
families followed by the store's merged families; ascending name order
and at-most-once uniqueness hold within each of the two segments (the
registry's by the gatherer's contract, the store's by `WriteAll`), not
across the concatenation. -/
theorem claim_C9 (registry : List Family) (targets : TargetMap)
    (hreg : (registry.map Family.name).Sorted strLt)
    (hnc : ∀ tf ∈ targets, nameConsistent tf.2) :
    (handlerFamilies registry targets).map Family.name
        = registry.map Family.name ++ (writeAll targets).map Family.name
      ∧ (registry.map Family.name).Sorted strLt
      ∧ ((writeAll targets).map Family.name).Sorted strLt := by
  refine ⟨?_, hreg, writeAll_names_sorted targets hnc⟩
  unfold handlerFamilies
  simp [List.map_append]

/-- C9 (witness): a concrete registry and store, each segment sorted. -/
theorem claim_C9_witness :
    (([Family.mk "zz" "h" 0 []].map Family.name).Sorted strLt)
      ∧ (∀ tf ∈ ([("t", [("a", Family.mk "a" "h" 0 [])])] : TargetMap), nameConsistent tf.2)
      ∧ ((handlerFamilies [Family.mk "zz" "h" 0 []]
            [("t", [("a", Family.mk "a" "h" 0 [])])]).map Family.name
          = [Family.mk "zz" "h" 0 []].map Family.name
            ++ (writeAll [("t", [("a", Family.mk "a" "h" 0 [])])]).map Family.name
        ∧ ([Family.mk "zz" "h" 0 []].map Family.name).Sorted strLt
        ∧ ((writeAll [("t", [("a", Family.mk "a" "h" 0 [])])]).map Family.name).Sorted strLt) :=
  ⟨by decide, by decide,
    claim_C9 [Family.mk "zz" "h" 0 []] [("t", [("a", Family.mk "a" "h" 0 [])])]
      (by decide) (by decide)⟩

/-! ## Namespace label stamping (C5) -/

theorem mem_setNamespaceLabel (ns : String) (l : List (String × String)) :
    ("namespace", ns) ∈ setNamespaceLabel ns l := by
  induction l with
  | nil => simp [setNamespaceLabel]
  | cons q rest ih =>
    obtain ⟨k, v⟩ := q
    by_cases h : k = "namespace"
    · subst h
      simp [setNamespaceLabel]
    · simp only [setNamespaceLabel, if_neg h]
      exact List.mem_cons_of_mem _ ih

theorem setNamespaceLabel_values (ns : String) (l : List (String × String))
    (hnd : (l.map Prod.fst).Nodup) :
    ∀ p ∈ setNamespaceLabel ns l, p.1 = "namespace" → p.2 = ns := by
  induction l with
  | nil =>
    intro p hp hkey
    simp only [setNamespaceLabel, List.mem_singleton] at hp
    subst hp
    rfl
  | cons q rest ih =>
    obtain ⟨k, v⟩ := q
    simp only [List.map_cons, List.nodup_cons] at hnd
    intro p hp hkey
    by_cases h : k = "namespace"
    · subst h
      simp only [setNamespaceLabel, if_pos rfl] at hp
      rcases List.mem_cons.mp hp with rfl | hp
      · rfl
      · exfalso
        apply hnd.1
        rw [← hkey]
        exact List.mem_map_of_mem Prod.fst hp
    · simp only [setNamespaceLabel, if_neg h] at hp
      rcases List.mem_cons.mp hp with rfl | hp
      · exact absurd hkey h
      · exact ih hnd.2 p hp hkey

/-- C5. Every sample of a labelled family carries the `namespace` label
with the pod's source namespace, and — given the data model's invariant
that label names are unique within a sample — every `namespace` label of
the result holds that value, overwriting whatever the payload supplied. -/
theorem claim_C5 (family : Family) (ns : String)
    (hnd : ∀ m ∈ family.metric, (m.labels.map Prod.fst).Nodup) :
    ∀ m ∈ (cloneAndLabelFamily family ns).metric,
      ("namespace", ns) ∈ m.labels
        ∧ ∀ p ∈ m.labels, p.1 = "namespace" → p.2 = ns := by
  intro m hm
  unfold cloneAndLabelFamily at hm
  simp only [List.mem_map] at hm
  obtain ⟨m0, hm0, rfl⟩ := hm
  exact ⟨mem_setNamespaceLabel ns m0.labels,
    setNamespaceLabel_values ns m0.labels (hnd m0 hm0)⟩

/-- C5 (witness): a payload that spoofed `namespace=spoofed` is
overwritten to the source namespace `ns1`. -/
theorem claim_C5_witness :
    (∀ m ∈ famSpoof.metric, (m.labels.map Prod.fst).Nodup)
      ∧ (("namespace", "ns1") ∈ (Sample.mk [("namespace", "ns1"), ("a", "b")] 5).labels
          ∧ ∀ p ∈ (Sample.mk [("namespace", "ns1"), ("a", "b")] 5).labels,
              p.1 = "namespace" → p.2 = "ns1") :=
  ⟨by decide,
    claim_C5 famSpoof "ns1" (by decide)
      (Sample.mk [("namespace", "ns1"), ("a", "b")] 5) (by decide)⟩

/-! ## One scrape cycle (C1, C2) -/

theorem scrapePodsLoop_spec (env : ScrapeEnv) (ns : String) (pods : List Pod)
    (acc : FamMap) (errs : List String) :
    scrapePodsLoop env ns pods (acc, errs)
      = ((podParses env ns pods).foldl (fun a pr => addParsed a ns pr) acc,
         errs ++ podFailures env ns pods) := by
  induction pods generalizing acc errs with
  | nil => simp [scrapePodsLoop, podParses, podFailures]
  | cons pod rest ih =>
    simp only [scrapePodsLoop, List.foldl_cons] at ih ⊢
    by_cases hip : pod.ip = ""
    · simp only [if_pos hip]
      rw [ih]
      simp [podParses, podFailures, hip]
    · cases hscrape : env.scrape ns pod with
      | error e =>
        simp only [if_neg hip, hscrape]
        rw [ih]
        simp [podParses, podFailures, hip, hscrape, List.filterMap_cons,
          Except.toOption, List.append_assoc]
      | ok parsed =>
        simp only [if_neg hip, hscrape]
        rw [ih]
        simp [podParses, podFailures, hip, hscrape, List.filterMap_cons,
          Except.toOption]

theorem scrapeNamespacesLoop_spec (env : ScrapeEnv) (nss : List String)
    (acc : FamMap) (errs : List String) :
    scrapeNamespacesLoop env nss (acc, errs)
      = ((cycleParses env nss).foldl (fun a p => addParsed a p.1 p.2) acc,
         errs ++ cycleFailures env nss) := by
  induction nss generalizing acc errs with
  | nil => simp [scrapeNamespacesLoop, cycleParses, cycleFailures]
  | cons ns rest ih =>
    simp only [scrapeNamespacesLoop, List.foldl_cons] at ih ⊢
    cases hpods : env.pods ns with
    | error e =>
      simp only [hpods]
      rw [ih]
      simp [cycleParses, cycleFailures, hpods, List.append_assoc]
    | ok pods =>
      simp only [hpods]
      rw [scrapePodsLoop_spec, ih]
      simp [cycleParses, cycleFailures, hpods, List.foldl_append, List.foldl_map,
        List.append_assoc]

/-- C1. With a successful namespace listing, `ScrapeOnce` publishes via
`Store.Replace` exactly the merge of the successfully scraped pods'
families (`mergedFamilies`) and returns precisely the cycle's
independent failures, which are empty iff no per-namespace or per-pod
failure occurred. -/
theorem claim_C1 (env : ScrapeEnv) (target : String) (store : TargetMap)
    (nss : List String) (h : env.namespaces = .ok nss) :
    scrapeOnce env target store
        = (replaceTarget store target (mergedFamilies env nss), cycleFailures env nss)
      ∧ ((scrapeOnce env target store).2 = [] ↔ cycleFailures env nss = []) := by
  have hmain : scrapeOnce env target store
      = (replaceTarget store target (mergedFamilies env nss), cycleFailures env nss) := by
    unfold scrapeOnce
    rw [h]
    show (replaceTarget store target (scrapeNamespacesLoop env nss ([], [])).1,
      (scrapeNamespacesLoop env nss ([], [])).2) = _
    rw [scrapeNamespacesLoop_spec]
    unfold mergedFamilies
    simp
  exact ⟨hmain, by rw [hmain]⟩

/-- C1 (witness): namespace `A` fails pod listing, namespace `B` yields
two scraped pods; the published snapshot holds `bar` merged from `B`'s
two pods only (both samples stamped `namespace=B`) and exactly one
aggregated failure is returned. -/
theorem claim_C1_witness :
    envC1.namespaces = .ok ["A", "B"]
      ∧ (scrapeOnce envC1 "T" []
            = (replaceTarget [] "T" (mergedFamilies envC1 ["A", "B"]),
               cycleFailures envC1 ["A", "B"])
          ∧ ((scrapeOnce envC1 "T" []).2 = [] ↔ cycleFailures envC1 ["A", "B"] = []))
      ∧ cycleFailures envC1 ["A", "B"] = ["list pods in namespace A: down"]
      ∧ lookupFam (mergedFamilies envC1 ["A", "B"]) "bar"
          = some ⟨"bar", "help", 1,
              [⟨[("namespace", "B")], 1⟩, ⟨[("namespace", "B")], 2⟩]⟩ :=
  ⟨rfl, claim_C1 envC1 "T" [] ["A", "B"] rfl, by decide, by decide⟩

/-- C2. When the namespace listing fails, `ScrapeOnce` performs no
`Replace` — the store is returned unchanged — and the result carries the
one cycle-aborting error. -/
theorem claim_C2 (env : ScrapeEnv) (target : String) (store : TargetMap)
    (e : String) (h : env.namespaces = .error e) :
    scrapeOnce env target store = (store, ["list namespaces: " ++ e]) := by
  unfold scrapeOnce
  rw [h]

/-- C2 (witness): target `T` previously published `foo` with 3 samples;
a cycle whose namespace listing fails leaves the store — and hence the
merged view's `foo` with its 3 samples — unchanged while returning a
non-empty error. -/
theorem claim_C2_witness :
    envC2.namespaces = .error "boom"
      ∧ scrapeOnce envC2 "T" storeFoo = (storeFoo, ["list namespaces: boom"])
      ∧ (lookupFam (snapshot storeFoo) "foo").map (fun f => f.metric.length) = some 3 :=
  ⟨rfl, claim_C2 envC2 "T" storeFoo "boom" rfl, by decide⟩

/-! ## Resolver: cache memoization and reference evaluation -/

theorem ensureGatewaysCached_spec (env : ResolverEnv) (ns : String) (c : GatewayCache)
    (hc : cacheFaithful env c) {c1 : GatewayCache} {m : GatewayMap} {calls : List String}
    (h : ensureGatewaysCached env ns c = .ok (c1, m, calls)) :
    cacheFaithful env c1 ∧ gatewayMapSpec env ns = .ok m ∧ "" ∉ calls := by
  unfold ensureGatewaysCached at h
  by_cases hns : ns = ""
  · rw [if_pos hns] at h
    simp only [Except.ok.injEq, Prod.mk.injEq] at h
    obtain ⟨rfl, rfl, rfl⟩ := h
    exact ⟨hc, by simp [gatewayMapSpec, hns], by simp⟩
  · rw [if_neg hns] at h
    cases hcache : lookupCache c ns with
    | some m0 =>
      rw [hcache] at h
      simp only [Except.ok.injEq, Prod.mk.injEq] at h
      obtain ⟨rfl, rfl, rfl⟩ := h
      refine ⟨hc, ?_, by simp⟩
      exact (hc (ns, m0) (assocLookup_mem hcache)).2
    | none =>
      rw [hcache] at h
      cases hgw : env.gateways ns with
      | error e => rw [hgw] at h; simp at h
      | ok gws =>
        rw [hgw] at h
        simp only [Except.ok.injEq, Prod.mk.injEq] at h
        obtain ⟨rfl, rfl, rfl⟩ := h
        refine ⟨?_, ?_, ?_⟩
        · intro p hp
          rcases List.mem_append.mp hp with hp | hp
          · exact hc p hp
          · rw [List.mem_singleton] at hp
            subst hp
            exact ⟨hns, by simp [gatewayMapSpec, hns, hgw, Except.map]⟩
        · simp [gatewayMapSpec, hns, hgw, Except.map]
        · simp only [List.mem_singleton]
          exact fun habs => hns habs.symm

theorem evalRef_spec (env : ResolverEnv) (c : GatewayCache) (nsName : String)
    (hosts : List String) (ref : String) (hc : cacheFaithful env c)
    {v : Nat} {c1 : GatewayCache} {calls : List String}
    (h : evalRef env c nsName hosts ref = .ok (v, c1, calls)) :
    cacheFaithful env c1 ∧ v = refValue env nsName hosts ref ∧ "" ∉ calls := by
  unfold evalRef at h
  by_cases h0 : ref = ""
  · rw [if_pos h0] at h
    simp only [Except.ok.injEq, Prod.mk.injEq] at h
    obtain ⟨rfl, rfl, rfl⟩ := h
    exact ⟨hc, by simp [refValue, h0], by simp⟩
  · rw [if_neg h0] at h
    by_cases h1 : ref = "mesh"
    · rw [if_pos h1] at h
      simp only [Except.ok.injEq, Prod.mk.injEq] at h
      obtain ⟨rfl, rfl, rfl⟩ := h
      exact ⟨hc, by simp [refValue, h0, h1], by simp⟩
    · rw [if_neg h1] at h
      cases hens : ensureGatewaysCached env (splitRef nsName ref).1 c with
      | error e => rw [hens] at h; simp at h
      | ok t =>
        obtain ⟨c2, m, calls2⟩ := t
        rw [hens] at h
        simp only [Except.ok.injEq, Prod.mk.injEq] at h
        obtain ⟨rfl, rfl, rfl⟩ := h
        obtain ⟨hc2, hspec, hcalls2⟩ := ensureGatewaysCached_spec env _ c hc hens
        refine ⟨hc2, ?_, hcalls2⟩
        simp [refValue, h0, h1, hspec]

/-! ## Resolver: no gateway listing ever targets the empty namespace -/

theorem ensureGatewaysCached_no_empty_call (env : ResolverEnv) (ns : String)
    (c : GatewayCache) {c1 : GatewayCache} {m : GatewayMap} {calls : List String}
    (h : ensureGatewaysCached env ns c = .ok (c1, m, calls)) : "" ∉ calls := by
  unfold ensureGatewaysCached at h
  by_cases hns : ns = ""
  · rw [if_pos hns] at h
    simp only [Except.ok.injEq, Prod.mk.injEq] at h
    obtain ⟨rfl, rfl, rfl⟩ := h
    simp
  · rw [if_neg hns] at h
    cases hcache : lookupCache c ns with
    | some m0 =>
      rw [hcache] at h
      simp only [Except.ok.injEq, Prod.mk.injEq] at h
      obtain ⟨rfl, rfl, rfl⟩ := h
      simp
    | none =>
      rw [hcache] at h
      cases hgw : env.gateways ns with
      | error e => rw [hgw] at h; simp at h
      | ok gws =>
        rw [hgw] at h
        simp only [Except.ok.injEq, Prod.mk.injEq] at h
        obtain ⟨rfl, rfl, rfl⟩ := h
        simp only [List.mem_singleton]
        exact fun habs => hns habs.symm

theorem evalRef_no_empty_call (env : ResolverEnv) (c : GatewayCache) (nsName : String)
    (hosts : List String) (ref : String)
    {v : Nat} {c1 : GatewayCache} {calls : List String}
    (h : evalRef env c nsName hosts ref = .ok (v, c1, calls)) : "" ∉ calls := by
  unfold evalRef at h
  by_cases h0 : ref = ""
  · rw [if_pos h0] at h
    simp only [Except.ok.injEq, Prod.mk.injEq] at h
    obtain ⟨rfl, rfl, rfl⟩ := h
    simp
  · rw [if_neg h0] at h
    by_cases h1 : ref = "mesh"
    · rw [if_pos h1] at h
      simp only [Except.ok.injEq, Prod.mk.injEq] at h
      obtain ⟨rfl, rfl, rfl⟩ := h
      simp
    · rw [if_neg h1] at h
      cases hens : ensureGatewaysCached env (splitRef nsName ref).1 c with
      | error e => rw [hens] at h; simp at h
      | ok t =>
        obtain ⟨c2, m, calls2⟩ := t
        rw [hens] at h
        simp only [Except.ok.injEq, Prod.mk.injEq] at h
        obtain ⟨rfl, rfl, rfl⟩ := h
        exact ensureGatewaysCached_no_empty_call env _ c hens

theorem refsLoop_no_empty_call (env : ResolverEnv) (nsName vsName : String)
    (hosts : List String) :
    ∀ (refs : List String) (s : LoopState) {s1 : LoopState} {err : Option String},
      "" ∉ s.calls → refsLoop env nsName vsName hosts refs s = (s1, err) →
        "" ∉ s1.calls
  | [], s, s1, err, hs, h => by
    simp only [refsLoop, Prod.mk.injEq] at h
    obtain ⟨rfl, rfl⟩ := h
    exact hs
  | ref :: rest, s, s1, err, hs, h => by
    simp only [refsLoop] at h
    cases heval : evalRef env s.cache nsName hosts ref with
    | error e =>
      rw [heval] at h
      simp only [Prod.mk.injEq] at h
      obtain ⟨rfl, rfl⟩ := h
      exact hs
    | ok t =>
      obtain ⟨v, c1, calls⟩ := t
      rw [heval] at h
      refine refsLoop_no_empty_call env nsName vsName hosts rest _ ?_ h
      simp only [List.mem_append]
      rintro (habs | habs)
      · exact hs habs
      · exact evalRef_no_empty_call env s.cache nsName hosts ref heval habs

theorem vsLoop_no_empty_call (env : ResolverEnv) (nsName : String) :
    ∀ (vss : List VirtualService) (s : LoopState) {s1 : LoopState} {err : Option String},
      "" ∉ s.calls → vsLoop env nsName vss s = (s1, err) → "" ∉ s1.calls
  | [], s, s1, err, hs, h => by
    simp only [vsLoop, Prod.mk.injEq] at h
    obtain ⟨rfl, rfl⟩ := h
    exact hs
  | vs :: rest, s, s1, err, hs, h => by
    simp only [vsLoop] at h
    cases hp : processVS env nsName vs s with
    | mk s2 err2 =>
      rw [hp] at h
      have hs2 : "" ∉ s2.calls :=
        refsLoop_no_empty_call env nsName vs.name vs.hosts _ s hs hp
      cases err2 with
      | some e =>
        simp only [Prod.mk.injEq] at h
        obtain ⟨rfl, rfl⟩ := h
        exact hs2
      | none => exact vsLoop_no_empty_call env nsName rest s2 hs2 h

theorem nsLoop_no_empty_call (env : ResolverEnv) :
    ∀ (nss : List String) (s : LoopState) {s1 : LoopState} {err : Option String},
      "" ∉ s.calls → nsLoop env nss s = (s1, err) → "" ∉ s1.calls
  | [], s, s1, err, hs, h => by
    simp only [nsLoop, Prod.mk.injEq] at h
    obtain ⟨rfl, rfl⟩ := h
    exact hs
  | ns :: rest, s, s1, err, hs, h => by
    simp only [nsLoop] at h
    cases hens : ensureGatewaysCached env ns s.cache with
    | error e =>
      simp only [hens, Prod.mk.injEq] at h
      obtain ⟨rfl, rfl⟩ := h
      exact hs
    | ok t =>
      obtain ⟨c1, m, calls1⟩ := t
      simp only [hens] at h
      have hs1 : "" ∉ s.calls ++ calls1 := by
        simp only [List.mem_append]
        rintro (habs | habs)
        · exact hs habs
        · exact ensureGatewaysCached_no_empty_call env ns s.cache hens habs
      cases hvss : env.virtualServices ns with
      | error e =>
        simp only [hvss, Prod.mk.injEq] at h
        obtain ⟨rfl, rfl⟩ := h
        exact hs1
      | ok vss =>
        simp only [hvss] at h
        cases hv : vsLoop env ns vss { s with cache := c1, calls := s.calls ++ calls1 } with
        | mk s2 err2 =>
          simp only [hv] at h
          have hs2 : "" ∉ s2.calls :=
            vsLoop_no_empty_call env ns vss _ hs1 hv
          cases err2 with
          | some e =>
            simp only [Prod.mk.injEq] at h
            obtain ⟨rfl, rfl⟩ := h
            exact hs2
          | none => exact nsLoop_no_empty_call env rest s2 hs2 h

theorem update_no_empty_call (env : ResolverEnv) (st : ResolverState) :
    "" ∉ (update env st).gatewayListCalls := by
  unfold update
  cases hns : env.namespaces with
  | error e => simp
  | ok nss =>
    simp only
    cases h : nsLoop env nss ⟨[], [], [], []⟩ with
    | mk s1 err =>
      simp only
      exact nsLoop_no_empty_call env nss ⟨[], [], [], []⟩ (by simp) h

/-! ## Resolver: per-VirtualService emission -/

theorem refsLoop_emitted (env : ResolverEnv) (nsName vsName : String)
    (hosts : List String) :
    ∀ (refs : List String) (s : LoopState) {s1 : LoopState},
      cacheFaithful env s.cache →
      refsLoop env nsName vsName hosts refs s = (s1, none) →
        cacheFaithful env s1.cache
          ∧ s1.emitted = s.emitted
              ++ refs.map (fun ref =>
                  ((nsName, vsName, ref), refValue env nsName hosts ref))
  | [], s, s1, hc, h => by
    simp only [refsLoop, Prod.mk.injEq] at h
    obtain ⟨rfl, -⟩ := h
    exact ⟨hc, by simp⟩
  | ref :: rest, s, s1, hc, h => by
    simp only [refsLoop] at h
    cases heval : evalRef env s.cache nsName hosts ref with
    | error e =>
      simp only [heval, Prod.mk.injEq] at h
      exact absurd h.2 (by simp)
    | ok t =>
      obtain ⟨v, c1, calls⟩ := t
      simp only [heval] at h
      obtain ⟨hc1, hv, -⟩ := evalRef_spec env s.cache nsName hosts ref hc heval
      obtain ⟨hc2, hemit⟩ := refsLoop_emitted env nsName vsName hosts rest _ hc1 h
      refine ⟨hc2, ?_⟩
      rw [hemit]
      simp [hv, List.append_assoc]

theorem refValue_eq_zero (env : ResolverEnv) (nsName : String) (hosts : List String)
    (ref : String)
    (h : ref = ""
      ∨ (ref ≠ "mesh" ∧ ∃ m, gatewayMapSpec env (splitRef nsName ref).1 = .ok m
          ∧ (m = [] ∨ lookupGw m (splitRef nsName ref).2 = none))) :
    refValue env nsName hosts ref = 0 := by
  rcases h with rfl | ⟨hmesh, m, hspec, hbad⟩
  · simp [refValue]
  · by_cases h0 : ref = ""
    · simp [refValue, h0]
    · rcases hbad with rfl | hlook
      · simp [refValue, h0, hmesh, hspec]
      · simp [refValue, h0, hmesh, hspec, hlook]

/-- C6. In a cycle that processes a VirtualService without error: an
empty gateway-reference list emits exactly one series, keyed `mesh`,
with value 1; and every explicit reference that is empty, resolves to a
namespace holding zero gateways, or names a gateway that cannot be
found, still has its (namespace, virtualService, reference) series
emitted, with value 0. -/
theorem claim_C6 (env : ResolverEnv) (nsName : String) (vs : VirtualService)
    (s : LoopState) (s1 : LoopState)
    (hc : cacheFaithful env s.cache)
    (h : processVS env nsName vs s = (s1, none)) :
    (vs.gateways = [] →
        s1.emitted = s.emitted ++ [((nsName, vs.name, "mesh"), 1)])
      ∧ ∀ ref ∈ vs.gateways,
          (ref = ""
            ∨ (ref ≠ "mesh" ∧ ∃ m, gatewayMapSpec env (splitRef nsName ref).1 = .ok m
                ∧ (m = [] ∨ lookupGw m (splitRef nsName ref).2 = none))) →
          ((nsName, vs.name, ref), 0) ∈ s1.emitted := by
  unfold processVS at h
  constructor
  · intro hempty
    rw [hempty] at h
    obtain ⟨-, hemit⟩ :=
      refsLoop_emitted env nsName vs.name vs.hosts ["mesh"] s hc h
    rw [hemit]
    simp [refValue]
  · intro ref href hbad
    have hne : ¬ vs.gateways.isEmpty = true := by
      cases hgws : vs.gateways with
      | nil => rw [hgws] at href; exact absurd href (List.not_mem_nil ref)
      | cons a l => simp [hgws]
    rw [if_neg hne] at h
    obtain ⟨-, hemit⟩ :=
      refsLoop_emitted env nsName vs.name vs.hosts vs.gateways s hc h
    rw [hemit]
    apply List.mem_append_right
    have h0 : refValue env nsName vs.hosts ref = 0 :=
      refValue_eq_zero env nsName vs.hosts ref hbad
    rw [← h0]
    exact List.mem_map_of_mem _ href

/-- C6 (witness): with every namespace listing zero gateways, a
VirtualService without references emits exactly the `mesh` series with
value 1, and one with an empty and a dangling reference emits explicit
0 series for both. -/
theorem claim_C6_witness :
    processVS envC6 "ns1" vsMesh ⟨[], [], [], []⟩
        = (⟨[(("ns1", "vs0", "mesh"), 1)], [], [], [(("ns1", "vs0", "mesh"), 1)]⟩, none)
      ∧ (⟨[(("ns1", "vs0", "mesh"), 1)], [], [],
            [(("ns1", "vs0", "mesh"), 1)]⟩ : LoopState).emitted
          = (⟨[], [], [], []⟩ : LoopState).emitted ++ [(("ns1", "vs0", "mesh"), 1)]
      ∧ ((("ns1", "vs1", ""), 0)
          ∈ (processVS envC6 "ns1" vsW ⟨[], [], [], []⟩).1.emitted)
      ∧ ((("ns1", "vs1", "missing/edge"), 0)
          ∈ (processVS envC6 "ns1" vsW ⟨[], [], [], []⟩).1.emitted) := by
  have hcf : cacheFaithful envC6 ([] : GatewayCache) :=
    fun p hp => absurd hp (List.not_mem_nil p)
  have hm : processVS envC6 "ns1" vsMesh ⟨[], [], [], []⟩
      = (⟨[(("ns1", "vs0", "mesh"), 1)], [], [], [(("ns1", "vs0", "mesh"), 1)]⟩, none) := by
    decide
  have hw : processVS envC6 "ns1" vsW ⟨[], [], [], []⟩
      = (⟨[(("ns1", "vs1", ""), 0), (("ns1", "vs1", "missing/edge"), 0),
            (("ns1", "vs1", "mesh"), 1)],
          [("missing", [])], ["missing"],
          [(("ns1", "vs1", ""), 0), (("ns1", "vs1", "missing/edge"), 0),
            (("ns1", "vs1", "mesh"), 1)]⟩, none) := by
    decide
  have h1 := (claim_C6 envC6 "ns1" vsMesh ⟨[], [], [], []⟩ _ hcf hm).1 rfl
  have h2 := (claim_C6 envC6 "ns1" vsW ⟨[], [], [], []⟩ _ hcf hw).2
  exact ⟨hm, h1, h2 "" (by decide) (Or.inl rfl),
    h2 "missing/edge" (by decide) (Or.inr ⟨by decide, [], rfl, Or.inl rfl⟩)⟩

/-- C7. The claim as stated is refuted: a cycle whose gateway listing
fails (after the namespace listing succeeded) aborts with an error, but
the gauge has already been reset, so the prior published series set is
not retained. -/
theorem claim_C7_counterexample :
    (update envC7 ⟨[(("n", "v", "g"), 1)], 0⟩).err = some "gwboom"
      ∧ (update envC7 ⟨[(("n", "v", "g"), 1)], 0⟩).state.gauge
          ≠ [(("n", "v", "g"), 1)] :=
  ⟨by decide, by decide⟩

/-- C7 (amended). A cycle that fails at namespace listing aborts with
that error, performs no gateway list call, emits nothing, and retains
the prior gauge series unchanged; a VirtualService- or Gateway-listing
failure also aborts with an error, but only after the gauge was reset,
so the prior series set is replaced by the partially repopulated one. -/
theorem claim_C7 (env : ResolverEnv) (st : ResolverState) (e : String)
    (h : env.namespaces = .error e) :
    update env st = ⟨⟨st.gauge, st.updateCount + 1⟩, [], [], some e⟩ := by
  unfold update
  rw [h]

/-- C7 (witness): a namespace-listing failure leaves the gauge series
untouched while bumping the attempt counter and reporting the error. -/
theorem claim_C7_witness :
    envC7ns.namespaces = .error "nsboom"
      ∧ update envC7ns ⟨[(("n", "v", "g"), 1)], 41⟩
          = ⟨⟨[(("n", "v", "g"), 1)], 42⟩, [], [], some "nsboom"⟩ :=
  ⟨rfl, claim_C7 envC7ns ⟨[(("n", "v", "g"), 1)], 41⟩ "nsboom" rfl⟩

/-- C10. A gateway reference whose qualified namespace part is empty
evaluates to value 0 with the cache unchanged and no gateway list call,
and no cycle ever issues a gateway list call for the empty namespace. -/
theorem claim_C10 (env : ResolverEnv) (st : ResolverState) (c : GatewayCache)
    (nsName : String) (hosts : List String) (ref : String)
    (h1 : ref ≠ "") (h2 : ref ≠ "mesh") (h3 : (splitRef nsName ref).1 = "") :
    evalRef env c nsName hosts ref = .ok (0, c, [])
      ∧ "" ∉ (update env st).gatewayListCalls := by
  refine ⟨?_, update_no_empty_call env st⟩
  unfold evalRef
  rw [if_neg h1, if_neg h2, h3]
  rfl

/-- C10 (witness): the reference `/edge-gw` in namespace `ns1` resolves
with value 0, no cache growth and no list call. -/
theorem claim_C10_witness :
    ("/edge-gw" ≠ "" ∧ "/edge-gw" ≠ "mesh" ∧ (splitRef "ns1" "/edge-gw").1 = "")
      ∧ (evalRef envC6 [] "ns1" ["h.example.com"] "/edge-gw" = .ok (0, [], [])
          ∧ "" ∉ (update envC6 ⟨[], 0⟩).gatewayListCalls) :=
  ⟨⟨by decide, by decide, by decide⟩,
    claim_C10 envC6 ⟨[], 0⟩ [] "ns1" ["h.example.com"] "/edge-gw"
      (by decide) (by decide) (by decide)⟩

end VsExporter
